import Mathlib

/-
Verification of the go-irckit server core: a shallow embedding of the
registry (server.go), the channel implementation (channel.go) and the
registration handshake, together with proofs about them.

Conventions of the embedding:
* Go pointer identity (`*User`, `Channel` interface values) is modelled by a
  numeric `uid` / `cid` field carried by the structure.
* Go maps (`map[string]*User`, `map[string]Channel`) are association lists
  with `lookupA` / `insertA` / `eraseA` mirroring map read, write and delete.
* A call `user.Encode(msg)` is modelled by emitting the pair
  `(recipient uid, message)` into the returned send list, in program order.
* A nil-interface method call (a Go runtime panic) is modelled by `none`
  in an `Option` result.
-/

namespace Irckit

/-- Origin of a message, mirroring irc.Prefix with fields Name, User, Host. -/
structure Pfx where
  name : String
  user : String
  host : String
deriving DecidableEq, Repr

/-- irc.Prefix.String(): Name, then "!"++User when nonempty, then "@"++Host
when nonempty. -/
def Pfx.render (p : Pfx) : String :=
  p.name ++ (if p.user = "" then "" else "!" ++ p.user)
         ++ (if p.host = "" then "" else "@" ++ p.host)

/-- irc.Message: optional origin, command verb, parameter list, trailing text. -/
structure Msg where
  pfx : Option Pfx
  command : String
  params : List String
  trailing : String
deriving DecidableEq, Repr

def RPL_WELCOME : String := "001"
def RPL_NOTOPIC : String := "331"
def RPL_TOPIC : String := "332"
def RPL_NAMREPLY : String := "353"
def RPL_ENDOFNAMES : String := "366"
def ERR_NOSUCHNICK : String := "401"
def ERR_NICKNAMEINUSE : String := "433"
def ERR_NOTONCHANNEL : String := "442"
def ERR_NEEDMOREPARAMS : String := "461"

/-- ID normalizes a name to its unique identifier (strings.ToLower:
character-wise lowering, written over the character list so that it
evaluates by kernel reduction). -/
def ID (s : String) : String := ⟨s.data.map Char.toLower⟩

/-- A *User: pointer identity `uid` plus the identity fields of user.go. -/
structure User where
  uid : Nat
  nick : String
  uname : String
  real : String
  host : String
deriving DecidableEq, Repr

/-- user.ID(): lowercase of the nick. -/
def User.ID (u : User) : String := Irckit.ID u.nick

/-- user.Prefix(): Name=Nick, User=User, Host=Host. -/
def User.pfx (u : User) : Pfx := ⟨u.nick, u.uname, u.host⟩

/-- server.Prefix(): a bare irc.Prefix carrying only the config name. -/
def serverPfx (sname : String) : Pfx := ⟨sname, "", ""⟩

/- Association-list model of a Go map. -/

/-- Map read m[k]: the value at the first matching key, if any. -/
def lookupA {α : Type} (k : String) : List (String × α) → Option α
  | [] => none
  | p :: rest => if p.1 = k then some p.2 else lookupA k rest

/-- Map delete: remove every binding of key k. -/
def eraseA {α : Type} (k : String) (m : List (String × α)) : List (String × α) :=
  m.filter (fun p => !(decide (p.1 = k)))

/-- Map write m[k] = v: bind k to v, dropping any previous binding. -/
def insertA {α : Type} (k : String) (v : α) (m : List (String × α)) :
    List (String × α) :=
  (k, v) :: eraseA k m

theorem lookupA_eraseA_self {α : Type} (k : String) (m : List (String × α)) :
    lookupA k (eraseA k m) = none := by
  induction m with
  | nil => rfl
  | cons p rest ih =>
      by_cases h : p.1 = k
      · simpa [eraseA, h] using ih
      · simpa [eraseA, lookupA, h] using ih

theorem lookupA_eraseA_ne {α : Type} {k k' : String} (m : List (String × α))
    (h : k' ≠ k) : lookupA k' (eraseA k m) = lookupA k' m := by
  induction m with
  | nil => rfl
  | cons p rest ih =>
      by_cases hp : p.1 = k
      · have hpk : ¬ p.1 = k' := fun hk => h (hk ▸ hp)
        show lookupA k' (List.filter _ (p :: rest)) = lookupA k' (p :: rest)
        rw [List.filter_cons_of_neg (by simp [hp])]
        rw [show lookupA k' (p :: rest) = lookupA k' rest by
          simp [lookupA, hpk]]
        exact ih
      · show lookupA k' (List.filter _ (p :: rest)) = lookupA k' (p :: rest)
        rw [List.filter_cons_of_pos (by simp [hp])]
        by_cases hq : p.1 = k'
        · simp [lookupA, hq]
        · simp only [lookupA, hq, if_false]
          exact ih

theorem lookupA_insertA_self {α : Type} (k : String) (v : α)
    (m : List (String × α)) : lookupA k (insertA k v m) = some v := by
  simp [insertA, lookupA]

theorem lookupA_insertA_ne {α : Type} {k k' : String} (v : α)
    (m : List (String × α)) (h : k' ≠ k) :
    lookupA k' (insertA k v m) = lookupA k' m := by
  have hne : ¬ k = k' := fun hk => h hk.symm
  simp only [insertA, lookupA, hne, if_false]
  exact lookupA_eraseA_ne m h

/-- A Channel: pointer identity `cid`, server back-reference (`none` once
unlinked, mirroring the nil interface), name, keepEmpty flag, topic and the
member set usersIdx (a map keyed by *User pointer identity). -/
structure Channel where
  cid : Nat
  serverName : Option String
  name : String
  keepEmpty : Bool
  topic : String
  usersIdx : List User
deriving DecidableEq, Repr

/-- channel.ID(): lowercase of the channel name. -/
def Channel.ID (ch : Channel) : String := Irckit.ID ch.name

/-- Insertion of a string into a sorted list, ascending. -/
def insertSorted (s : String) : List String → List String
  | [] => [s]
  | x :: xs => if s ≤ x then s :: x :: xs else x :: insertSorted s xs

/-- sort.Strings: ascending lexicographic sort. -/
def sortStrings (l : List String) : List String := l.foldr insertSorted []

/-- channel.Names(): sorted nicks of the members. -/
def Channel.Names (ch : Channel) : List String :=
  sortStrings (ch.usersIdx.map User.nick)

/-- channel.Message(from, text): a PRIVMSG with the sender's prefix, params
[name] and the text as trailing is encoded to every member except the
sender. -/
def Channel.Message (ch : Channel) (sender : User) (text : String) :
    List (Nat × Msg) :=
  let msg : Msg := ⟨some sender.pfx, "PRIVMSG", [ch.name], text⟩
  (ch.usersIdx.filter (fun m => !(decide (m.uid = sender.uid)))).map
    (fun m => (m.uid, msg))

/-- channel.Part(u, text). When u is a member: the PART message (prefix u,
params [name], trailing text) is encoded to every member including u, u is
deleted, and when the channel became empty with keepEmpty unset and a live
server back-reference the channel unlinks itself and clears the reference
(the Bool result records unlinking). When u is not a member the code builds
an ERR_NOTONCHANNEL reply whose origin is ch.server.Prefix(): with a live
back-reference that single reply goes to u; with a nil back-reference the
call dereferences nil and panics, modelled by `none`. -/
def Channel.Part (ch : Channel) (u : User) (text : String) :
    Option (Channel × List (Nat × Msg) × Bool) :=
  let msg : Msg := ⟨some u.pfx, "PART", [ch.name], text⟩
  if ch.usersIdx.any (fun m => decide (m.uid = u.uid)) then
    let sends := ch.usersIdx.map (fun m => (m.uid, msg))
    let members' := ch.usersIdx.filter (fun m => !(decide (m.uid = u.uid)))
    let doUnlink := !ch.keepEmpty && members'.isEmpty && ch.serverName.isSome
    let srv' := if doUnlink then none else ch.serverName
    let ch' := { ch with usersIdx := members', serverName := srv' }
    some (ch', sends, doUnlink)
  else
    match ch.serverName with
    | some sname =>
        some (ch, [(u.uid, ⟨some (serverPfx sname), ERR_NOTONCHANNEL,
                    [ch.name], "You\x27re not on that channel"⟩)], false)
    | none => none

/-- channel.Join(u). A no-op when u is already a member. Otherwise u is
inserted, the JOIN broadcast (prefix u, params [name]) is encoded to every
member including u, and u alone then receives the topic reply (RPL_TOPIC, or
RPL_NOTOPIC with "No topic is set" when the topic is empty), RPL_NAMREPLY
and RPL_ENDOFNAMES, in that program order. The three follow-ups carry
ch.server.Prefix(), so a nil back-reference panics (`none`). -/
def Channel.Join (ch : Channel) (u : User) :
    Option (Channel × List (Nat × Msg)) :=
  if ch.usersIdx.any (fun m => decide (m.uid = u.uid)) then
    some (ch, [])
  else
    let topic := ch.topic
    let members' := ch.usersIdx ++ [u]
    let ch' := { ch with usersIdx := members' }
    let joinMsg : Msg := ⟨some u.pfx, "JOIN", [ch.name], ""⟩
    let broadcast := members'.map (fun m => (m.uid, joinMsg))
    match ch.serverName with
    | none => none
    | some sname =>
      let sPfx := serverPfx sname
      let topicCmd := if topic = "" then RPL_NOTOPIC else RPL_TOPIC
      let topicText := if topic = "" then "No topic is set" else topic
      let fol : List Msg :=
        [⟨some sPfx, topicCmd, [ch.name], topicText⟩,
         ⟨some sPfx, RPL_NAMREPLY, [u.nick, "=", ch.name],
          String.intercalate " " ch'.Names⟩,
         ⟨some sPfx, RPL_ENDOFNAMES, [u.nick], "End of /NAMES list."⟩]
      some (ch', broadcast ++ fol.map (fun m => (u.uid, m)))

/-- The event kinds published on the bus. -/
inductive EventKind
  | ConnectEvent
  | JoinEvent
  | PartEvent
  | QuitEvent
  | NewChanEvent
  | EmptyChanEvent
  | UserMsgEvent
  | ChanMsgEvent
deriving DecidableEq, Repr

/-- The server's shared state: config name plus the two Go maps, users by
id(nick) and channels by id(name). -/
structure SState where
  sname : String
  users : List (String × User)
  channels : List (String × Channel)
deriving DecidableEq, Repr

/-- server.Quit(u, message): closes u's transport, then deletes u from the
users map under the lock. Nothing else happens; in particular no channel is
touched. The Bool result records the transport close. -/
def SState.Quit (st : SState) (u : User) (message : String) : SState × Bool :=
  ({ st with users := eraseA u.ID st.users }, true)

/-- server.RenameUser(u, newNick). If any user sits at id(newNick) the
caller gets one ERR_NICKNAMEINUSE and false. Otherwise the old id is
deleted, the nick updated, the user reinserted under the new id, and a NICK
message bearing the pre-rename origin is encoded to u and to each user of
u.VisibleTo(). The body of VisibleTo is not part of these sources, so its
result is passed in as the uid list `visible`. -/
def SState.RenameUser (st : SState) (u : User) (newNick : String)
    (visible : List Nat) : SState × User × List (Nat × Msg) × Bool :=
  match lookupA (ID newNick) st.users with
  | some _ =>
      (st, u,
       [(u.uid, ⟨some (serverPfx st.sname), ERR_NICKNAMEINUSE, [newNick],
                 "Nickname is already in use"⟩)], false)
  | none =>
      let oldPfx := u.pfx
      let u' := { u with nick := newNick }
      let st' := { st with users := insertA u'.ID u' (eraseA u.ID st.users) }
      let changeMsg : Msg := ⟨some oldPfx, "NICK", [newNick], ""⟩
      (st', u', (u.uid :: visible).map (fun i => (i, changeMsg)), true)

/-- server.UnlinkChannel(ch): delete the entry at ch.ID() only when the
stored channel is ch itself (Go interface identity, modelled by cid). -/
def SState.UnlinkChannel (st : SState) (ch : Channel) : SState :=
  match lookupA ch.ID st.channels with
  | some stored =>
      if stored.cid = ch.cid then
        { st with channels := eraseA ch.ID st.channels }
      else st
  | none => st

/-- The PRIVMSG arm of the dispatcher for a message with target
query = params[0]: a channel at id(query) wins, else a user at id(query),
else the sender gets ERR_NOSUCHNICK. Returns the encoded sends and the
events published. -/
def privmsgCase (st : SState) (u : User) (m : Msg) :
    List (Nat × Msg) × List EventKind :=
  let query := m.params.headD ""
  match lookupA (ID query) st.channels with
  | some toChan => (toChan.Message u m.trailing, [EventKind.ChanMsgEvent])
  | none =>
      match lookupA (ID query) st.users with
      | some toUser =>
          ([(toUser.uid, ⟨some u.pfx, "PRIVMSG", [toUser.nick], m.trailing⟩)],
           [EventKind.UserMsgEvent])
      | none =>
          ([(u.uid, ⟨some (serverPfx st.sname), ERR_NOSUCHNICK, m.params,
                     "No such nick/channel"⟩)], [])

/- The registration handshake (server.handshake), fuelled by
handshakeMsgTolerance = 5. -/

/-- Result of the handshake: registration (with the updated users map, the
registered user and the messages encoded to it, in order), exhaustion of the
message budget, or a decode error. -/
inductive HsOutcome
  | registered (us : List (String × User)) (u : User) (sends : List Msg)
  | hsFailed (us : List (String × User)) (u : User) (sends : List Msg)
  | readErr (us : List (String × User)) (u : User) (sends : List Msg)
deriving DecidableEq, Repr

def HsOutcome.sends : HsOutcome → List Msg
  | .registered _ _ s => s
  | .hsFailed _ _ s => s
  | .readErr _ _ s => s

def HsOutcome.isRegistered : HsOutcome → Bool
  | .registered _ _ _ => true
  | _ => false

def needMoreMsg (sname cmd : String) : Msg :=
  ⟨some (serverPfx sname), ERR_NEEDMOREPARAMS, [cmd], ""⟩

def nickInUseMsg (sname nick : String) : Msg :=
  ⟨some (serverPfx sname), ERR_NICKNAMEINUSE, [nick],
   "Nickname is already in use"⟩

def welcomeMsg (sname : String) (u : User) : Msg :=
  ⟨some (serverPfx sname), RPL_WELCOME, [u.nick],
   "Welcome! " ++ Pfx.render u.pfx⟩

/-- The NICK/USER switch of the handshake loop body, for a message whose
params are nonempty: NICK sets the nick; USER sets user and real and adopts
the user name as nick when no nick is pending; anything else is ignored. -/
def applyHs (u : User) (m : Msg) : User :=
  if m.command = "NICK" then { u with nick := m.params.headD "" }
  else if m.command = "USER" then
    let u1 := { u with uname := m.params.headD "", real := m.trailing }
    if u1.nick = "" then { u1 with nick := u1.uname } else u1
  else u

/-- The handshake read loop. Each iteration consumes one decoded message
(an exhausted input list is a decode error, as from a closed transport):
messages without params draw ERR_NEEDMOREPARAMS; after NICK/USER, both
fields being set triggers server.add, whose failure draws
ERR_NICKNAMEINUSE; success encodes RPL_WELCOME and registers. Running out
of fuel yields hsFailed (ErrHandshakeFailed). -/
def handshakeLoop (sname : String) :
    Nat → List (String × User) → User → List Msg → List Msg → HsOutcome
  | 0, us, u, _, acc => .hsFailed us u acc
  | _ + 1, us, u, [], acc => .readErr us u acc
  | fuel + 1, us, u, m :: rest, acc =>
    if m.params.length < 1 then
      handshakeLoop sname fuel us u rest (acc ++ [needMoreMsg sname m.command])
    else
      let u1 := applyHs u m
      if u1.nick = "" ∨ u1.uname = "" then
        handshakeLoop sname fuel us u1 rest acc
      else
        match lookupA u1.ID us with
        | some _ =>
            handshakeLoop sname fuel us u1 rest
              (acc ++ [nickInUseMsg sname u1.nick])
        | none =>
            .registered (insertA u1.ID u1 us) u1 (acc ++ [welcomeMsg sname u1])

/-- server.handshake(u): resolve the host, then run the read loop with the
budget handshakeMsgTolerance = 5. -/
def handshake (sname : String) (us : List (String × User)) (u : User)
    (resolvedHost : String) (msgs : List Msg) : HsOutcome :=
  handshakeLoop sname 5 us { u with host := resolvedHost } msgs []

/-- The error Connect surfaces: ErrHandshakeFailed, or the decode error. -/
inductive ConnErr
  | handshakeFailed
  | transportErr
deriving DecidableEq, Repr

/-- server.Connect(u): run the handshake; on error close the transport and
return the error without publishing; on success publish ConnectEvent (the
dispatcher spawn is outside this model). Result: the users map afterwards,
the events published, whether the transport was closed, and the error. -/
def Connect (sname : String) (us : List (String × User)) (u : User)
    (resolvedHost : String) (msgs : List Msg) :
    List (String × User) × List EventKind × Bool × Option ConnErr :=
  match handshake sname us u resolvedHost msgs with
  | .registered us' _ _ => (us', [EventKind.ConnectEvent], false, none)
  | .hsFailed us' _ _ => (us', [], true, some ConnErr.handshakeFailed)
  | .readErr us' _ _ => (us', [], true, some ConnErr.transportErr)

/- Registry operations for the nick-uniqueness invariant: the three writers
of the users map are server.add (handshake registration), the success path
of server.RenameUser, and server.Quit. -/

inductive RegOp
  | addOp (u : User)
  | renameOp (u : User) (newNick : String)
  | quitOp (u : User)

/-- Effect of one registry operation on the users map, as written in
server.add, server.RenameUser and server.Quit. -/
def applyOp (us : List (String × User)) : RegOp → List (String × User)
  | .addOp u =>
      if (lookupA u.ID us).isSome then us else insertA u.ID u us
  | .renameOp u newNick =>
      if (lookupA (ID newNick) us).isSome then us
      else insertA (ID newNick) { u with nick := newNick } (eraseA u.ID us)
  | .quitOp u => eraseA u.ID us

/-- The users map reached by running a sequence of registry operations from
the empty map of a fresh server (oldest operation last). -/
def runOps : List RegOp → List (String × User)
  | [] => []
  | op :: rest => applyOp (runOps rest) op

/- Concrete fixtures used by the evaluation theorems and witnesses below. -/

def aliceU : User := ⟨1, "alice", "al", "Alice", "host1"⟩
def chatChan : Channel := ⟨7, some "srv", "#chat", false, "", [aliceU]⟩
def quitState : SState := ⟨"srv", [("alice", aliceU)], [("#chat", chatChan)]⟩

def fooU : User := ⟨1, "foo", "root", "Foo Bar", "client1"⟩
def freshChat : Channel := ⟨3, some "testserver", "#chat", false, "", []⟩

def bobU : User := ⟨2, "bob", "b", "", "host2"⟩
def carolU : User := ⟨3, "carol", "c", "", "host3"⟩
def deadChan : Channel := ⟨4, none, "#dead", false, "", []⟩
def liveChan : Channel := ⟨5, some "srv", "#live", false, "", [carolU]⟩

/-- Claim C1: server.Quit(u, msg) is documented ("Quit removes the user from
all the channels and disconnects") to part u from every channel and clear
u's channel set, but the code only deletes u from the users map and closes
the transport: after Quit of alice, alice is gone from the registry and the
transport is closed, yet #chat's member set still contains alice. -/
theorem quit_leaves_channel_membership :
    (quitState.Quit aliceU "bye").1.users = [] ∧
    (quitState.Quit aliceU "bye").2 = true ∧
    (quitState.Quit aliceU "bye").1.channels = [("#chat", chatChan)] ∧
    aliceU ∈ chatChan.usersIdx := by
  refine ⟨by decide, rfl, by decide, by decide⟩

/-- Claim C2: on a fresh join, channel.Join encodes the JOIN broadcast and
then, to the joiner alone, the topic reply FIRST and only then RPL_NAMREPLY
and RPL_ENDOFNAMES — the repository's tests prescribe the opposite order
353, 366, 331. -/
theorem join_sends_topic_before_names :
    (freshChat.Join fooU).map (fun r => r.2.map (fun p => p.2.command)) =
      some ["JOIN", RPL_NOTOPIC, RPL_NAMREPLY, RPL_ENDOFNAMES] := by
  decide

/-- Claim C3: channel.Part for a non-member builds the ERR_NOTONCHANNEL
reply from ch.server.Prefix(). On a channel still linked to the server the
non-member gets exactly that one reply and nothing else changes, but on an
unlinked channel (server back-reference nil) the call dereferences the nil
interface and panics instead of replying. -/
theorem part_nonmember_nil_server_panics :
    deadChan.Part bobU "bye" = none ∧
    liveChan.Part bobU "bye" =
      some (liveChan,
        [(2, ⟨some (serverPfx "srv"), ERR_NOTONCHANNEL, ["#live"],
              "You\x27re not on that channel"⟩)], false) := by
  refine ⟨rfl, by decide⟩

/-- Claim C5: channel.Message(from, text) encodes the PRIVMSG (origin =
sender, params = [name], trailing = text) to a recipient set that omits the
sender, covers every other member, and contains only members. -/
theorem message_reaches_all_but_sender (ch : Channel) (sender : User)
    (text : String) :
    (∀ q ∈ ch.Message sender text,
        q.1 ≠ sender.uid ∧
        q.2 = ⟨some sender.pfx, "PRIVMSG", [ch.name], text⟩ ∧
        ∃ m ∈ ch.usersIdx, m.uid = q.1) ∧
    (∀ m ∈ ch.usersIdx, m.uid ≠ sender.uid →
        (m.uid, (⟨some sender.pfx, "PRIVMSG", [ch.name], text⟩ : Msg)) ∈
          ch.Message sender text) := by
  constructor
  · intro q hq
    simp only [Channel.Message, List.mem_map, List.mem_filter] at hq
    obtain ⟨m, ⟨hmem, hne⟩, rfl⟩ := hq
    simp only [decide_eq_true_eq, Bool.not_eq_true', decide_eq_false_iff_not] at hne
    exact ⟨hne, rfl, m, hmem, rfl⟩
  · intro m hmem hne
    simp only [Channel.Message, List.mem_map, List.mem_filter]
    exact ⟨m, ⟨hmem, by simpa using hne⟩, rfl⟩

/-- Witness for message_reaches_all_but_sender: in #live, carol (uid 3)
receives bob's message. -/
theorem message_reaches_all_but_sender_witness :
    (3, (⟨some bobU.pfx, "PRIVMSG", ["#live"], "hi"⟩ : Msg)) ∈
      liveChan.Message bobU "hi" :=
  (message_reaches_all_but_sender liveChan bobU "hi").2 carolU (by decide)
    (by decide)

/-- Claim C9: server.UnlinkChannel(ch) deletes the entry at ch.ID() exactly
when the stored channel there is ch itself (identity comparison); a
different stored channel or an absent entry leaves the state untouched, and
entries at other keys are never affected. -/
theorem unlinkChannel_spec (st : SState) (ch : Channel) :
    (∀ stored, lookupA ch.ID st.channels = some stored → stored.cid = ch.cid →
        lookupA ch.ID (st.UnlinkChannel ch).channels = none) ∧
    (∀ stored, lookupA ch.ID st.channels = some stored → stored.cid ≠ ch.cid →
        st.UnlinkChannel ch = st) ∧
    (lookupA ch.ID st.channels = none → st.UnlinkChannel ch = st) ∧
    (∀ k, k ≠ ch.ID → lookupA k (st.UnlinkChannel ch).channels =
        lookupA k st.channels) := by
  refine ⟨?_, ?_, ?_, ?_⟩
  · intro stored h hcid
    simp only [SState.UnlinkChannel, h, hcid, if_true]
    exact lookupA_eraseA_self ch.ID st.channels
  · intro stored h hcid
    simp [SState.UnlinkChannel, h, hcid]
  · intro h
    simp [SState.UnlinkChannel, h]
  · intro k hk
    unfold SState.UnlinkChannel
    cases hl : lookupA ch.ID st.channels with
    | none => rfl
    | some stored =>
        by_cases hcid : stored.cid = ch.cid
        · simp only [hcid, if_true]
          exact lookupA_eraseA_ne st.channels hk
        · simp [hcid]

def chanA : Channel := ⟨11, some "srv", "#a", false, "", []⟩
def chanB : Channel := ⟨12, some "srv", "#b", false, "", []⟩
def twoChanState : SState := ⟨"srv", [], [("#a", chanA), ("#b", chanB)]⟩

/-- Witness for unlinkChannel_spec: unlinking #a leaves the entry for #b in
place. -/
theorem unlinkChannel_spec_witness :
    lookupA "#b" (twoChanState.UnlinkChannel chanA).channels = some chanB := by
  have h := (unlinkChannel_spec twoChanState chanA).2.2.2 "#b" (by decide)
  rw [h]; decide

/-- Claim C4: RenameUser with an occupied target id (any user, u included)
replies with one ERR_NICKNAMEINUSE and changes nothing; with a free target
id it moves u from its old key to id(newNick) with the nick updated,
returns true, and encodes one NICK message bearing the pre-rename origin
and params [newNick] to u and to every user VisibleTo returns. -/
theorem renameUser_spec (st : SState) (u : User) (newNick : String)
    (visible : List Nat) :
    (∀ w, lookupA (ID newNick) st.users = some w →
        st.RenameUser u newNick visible =
          (st, u, [(u.uid, ⟨some (serverPfx st.sname), ERR_NICKNAMEINUSE,
            [newNick], "Nickname is already in use"⟩)], false)) ∧
    (lookupA (ID newNick) st.users = none →
        (st.RenameUser u newNick visible).2.1 = { u with nick := newNick } ∧
        (st.RenameUser u newNick visible).2.2.2 = true ∧
        lookupA (ID newNick) (st.RenameUser u newNick visible).1.users =
          some { u with nick := newNick } ∧
        (u.ID ≠ ID newNick →
          lookupA u.ID (st.RenameUser u newNick visible).1.users = none) ∧
        (∀ k, k ≠ ID newNick → k ≠ u.ID →
          lookupA k (st.RenameUser u newNick visible).1.users =
            lookupA k st.users) ∧
        (st.RenameUser u newNick visible).2.2.1 =
          (u.uid :: visible).map
            (fun i => (i, ⟨some u.pfx, "NICK", [newNick], ""⟩))) := by
  constructor
  · intro w h
    simp [SState.RenameUser, h]
  · intro h
    have hid : ({ u with nick := newNick } : User).ID = ID newNick := rfl
    refine ⟨by simp [SState.RenameUser, h], by simp [SState.RenameUser, h],
            ?_, ?_, ?_, by simp [SState.RenameUser, h]⟩
    · simp only [SState.RenameUser, h]
      rw [show (ID newNick) = ({ u with nick := newNick } : User).ID from rfl]
      exact lookupA_insertA_self _ _ _
    · intro hne
      simp only [SState.RenameUser, h]
      rw [show lookupA u.ID
            (insertA ({ u with nick := newNick } : User).ID
              { u with nick := newNick } (eraseA u.ID st.users)) =
          lookupA u.ID (eraseA u.ID st.users) from
        lookupA_insertA_ne _ _ (hid ▸ hne)]
      exact lookupA_eraseA_self _ _
    · intro k hk1 hk2
      simp only [SState.RenameUser, h]
      rw [show lookupA k
            (insertA ({ u with nick := newNick } : User).ID
              { u with nick := newNick } (eraseA u.ID st.users)) =
          lookupA k (eraseA u.ID st.users) from
        lookupA_insertA_ne _ _ (hid ▸ hk1)]
      exact lookupA_eraseA_ne _ hk2

def renameState : SState := ⟨"srv", [("bob", bobU)], []⟩

/-- Witness for renameUser_spec: renaming bob to Robert on a registry that
has no entry at id "robert" stores the updated user at "robert" and leaves
key "bob" unbound. -/
theorem renameUser_spec_witness :
    lookupA "robert" (renameState.RenameUser bobU "Robert" [3]).1.users =
      some { bobU with nick := "Robert" } ∧
    lookupA "bob" (renameState.RenameUser bobU "Robert" [3]).1.users =
      none := by
  have h := (renameUser_spec renameState bobU "Robert" [3]).2 (by decide)
  exact ⟨h.2.2.1, h.2.2.2.1 (by decide)⟩

/-- Claim C6: dispatching PRIVMSG with target t = params[0]: a channel at
id(t) takes precedence (its Message runs and ChanMsgEvent is published,
whatever the users map holds); otherwise a user at id(t) receives one
PRIVMSG with the sender's origin and params [recipient nick] and
UserMsgEvent is published; otherwise the sender gets ERR_NOSUCHNICK. -/
theorem privmsg_routing (st : SState) (u : User) (m : Msg) (t : String)
    (rest : List String) (hp : m.params = t :: rest) :
    (∀ ch, lookupA (ID t) st.channels = some ch →
        privmsgCase st u m =
          (ch.Message u m.trailing, [EventKind.ChanMsgEvent])) ∧
    (lookupA (ID t) st.channels = none →
      (∀ tu, lookupA (ID t) st.users = some tu →
        privmsgCase st u m =
          ([(tu.uid, ⟨some u.pfx, "PRIVMSG", [tu.nick], m.trailing⟩)],
           [EventKind.UserMsgEvent])) ∧
      (lookupA (ID t) st.users = none →
        privmsgCase st u m =
          ([(u.uid, ⟨some (serverPfx st.sname), ERR_NOSUCHNICK, m.params,
             "No such nick/channel"⟩)], []))) := by
  refine ⟨?_, ?_⟩
  · intro ch hch
    simp [privmsgCase, hp, hch]
  · intro hch
    refine ⟨?_, ?_⟩
    · intro tu htu
      simp [privmsgCase, hp, hch, htu]
    · intro htu
      simp [privmsgCase, hp, hch, htu]

def dualChan : Channel := ⟨21, some "srv", "Dual", false, "", []⟩
def dualUser : User := ⟨9, "dual", "d", "", "host9"⟩
def dualState : SState := ⟨"srv", [("dual", dualUser)], [("dual", dualChan)]⟩

/-- Witness for privmsg_routing: with both a channel and a user at id
"dual", PRIVMSG DUAL routes to the channel and publishes ChanMsgEvent. -/
theorem privmsg_routing_witness :
    privmsgCase dualState bobU ⟨none, "PRIVMSG", ["DUAL"], "hey"⟩ =
      (dualChan.Message bobU "hey", [EventKind.ChanMsgEvent]) :=
  (privmsg_routing dualState bobU ⟨none, "PRIVMSG", ["DUAL"], "hey"⟩
    "DUAL" [] rfl).1 dualChan (by decide)

/-- A handshake that ends with the budget exhausted never changed the users
map: only the registering return path writes to it. -/
theorem hsLoop_hsFailed_users (sname : String) (fuel : Nat) :
    ∀ (us : List (String × User)) (u : User) (msgs acc : List Msg)
      (usf : List (String × User)) (uf : User) (s : List Msg),
      handshakeLoop sname fuel us u msgs acc = .hsFailed usf uf s →
      usf = us := by
  induction fuel with
  | zero =>
      intro us u msgs acc usf uf s h
      simp only [handshakeLoop] at h
      injection h with h1 h2 h3
      exact h1.symm
  | succ n ih =>
      intro us u msgs acc usf uf s h
      cases msgs with
      | nil => simp [handshakeLoop] at h
      | cons m rest =>
          simp only [handshakeLoop] at h
          by_cases h1 : m.params.length < 1
          · rw [if_pos h1] at h
            exact ih us u rest _ usf uf s h
          · rw [if_neg h1] at h
            by_cases h2 : (applyHs u m).nick = "" ∨ (applyHs u m).uname = ""
            · rw [if_pos h2] at h
              exact ih us _ rest _ usf uf s h
            · rw [if_neg h2] at h
              cases hl : lookupA (applyHs u m).ID us with
              | some w =>
                  rw [hl] at h
                  exact ih us _ rest _ usf uf s h
              | none =>
                  rw [hl] at h
                  simp at h

/-- The handshake loop looks at no more than `fuel` decoded messages. -/
theorem hsLoop_take (sname : String) :
    ∀ (fuel : Nat) (us : List (String × User)) (u : User)
      (msgs acc : List Msg),
      handshakeLoop sname fuel us u (msgs.take fuel) acc =
        handshakeLoop sname fuel us u msgs acc
  | 0, us, u, msgs, acc => rfl
  | _ + 1, us, u, [], acc => rfl
  | fuel + 1, us, u, m :: rest, acc => by
      show handshakeLoop sname (fuel + 1) us u (m :: rest.take fuel) acc = _
      simp only [handshakeLoop]
      split
      · exact hsLoop_take sname fuel us u rest _
      · split
        · exact hsLoop_take sname fuel us _ rest _
        · split
          · exact hsLoop_take sname fuel us _ rest _
          · rfl

/-- Claim C7: the handshake decodes at most handshakeMsgTolerance = 5
messages (its outcome is unchanged by truncating the input to 5), and when
the budget runs out without a registration Connect hands back
ErrHandshakeFailed with the users map exactly as before, the transport
closed and no event published. -/
theorem handshake_budget_spec (sname : String) (us : List (String × User))
    (u : User) (rh : String) (msgs : List Msg) :
    handshake sname us u rh (msgs.take 5) = handshake sname us u rh msgs ∧
    ∀ usf uf s, handshake sname us u rh msgs = .hsFailed usf uf s →
      usf = us ∧
      Connect sname us u rh msgs =
        (us, [], true, some ConnErr.handshakeFailed) := by
  constructor
  · exact hsLoop_take sname 5 us _ msgs []
  · intro usf uf s h
    have husf := hsLoop_hsFailed_users sname 5 us _ msgs [] usf uf s h
    refine ⟨husf, ?_⟩
    simp only [Connect, handshake] at h ⊢
    rw [h, husf]

def blankU : User := ⟨6, "", "", "", ""⟩
def idleMsg : Msg := ⟨none, "PING", ["x"], ""⟩
def fiveIdle : List Msg := [idleMsg, idleMsg, idleMsg, idleMsg, idleMsg]

/-- Witness for handshake_budget_spec: five messages that never complete
the identity leave Connect with a handshake failure and an untouched
registry. -/
theorem handshake_budget_spec_witness :
    Connect "srv" [] blankU "hostX" fiveIdle =
      ([], [], true, some ConnErr.handshakeFailed) :=
  ((handshake_budget_spec "srv" [] blankU "hostX" fiveIdle).2
    [] { blankU with host := "hostX" } [] (by decide)).2

/- Nick-uniqueness invariant of the users map. -/

theorem mem_eraseA {α : Type} {p : String × α} {k : String}
    {m : List (String × α)} : p ∈ eraseA k m ↔ p ∈ m ∧ p.1 ≠ k := by
  simp [eraseA, List.mem_filter]

theorem nodup_keys_eraseA {α : Type} (k : String) (m : List (String × α))
    (h : (m.map Prod.fst).Nodup) :
    ((eraseA k m).map Prod.fst).Nodup :=
  h.sublist ((List.filter_sublist m).map Prod.fst)

theorem not_mem_keys_eraseA {α : Type} (k : String)
    (m : List (String × α)) : k ∉ (eraseA k m).map Prod.fst := by
  simp only [eraseA, List.mem_map]
  rintro ⟨p, hp, rfl⟩
  simp [List.mem_filter] at hp

/-- The registry invariant of the users map: keys are distinct and every
stored user sits exactly at the lowercase of its own nick. -/
def UsersInv (us : List (String × User)) : Prop :=
  (us.map Prod.fst).Nodup ∧ ∀ p ∈ us, p.1 = ID p.2.nick

theorem usersInv_insertA (us : List (String × User)) (u : User)
    (k : String) (hk : k = ID u.nick) (h : UsersInv us) :
    UsersInv (insertA k u us) := by
  obtain ⟨hnd, hkey⟩ := h
  constructor
  · simp only [insertA, List.map_cons]
    exact List.nodup_cons.mpr ⟨not_mem_keys_eraseA k us, nodup_keys_eraseA k us hnd⟩
  · intro p hp
    rcases List.mem_cons.mp hp with hp | hp
    · rw [hp]; exact hk
    · exact hkey p (mem_eraseA.mp hp).1

theorem usersInv_applyOp (us : List (String × User)) (op : RegOp)
    (h : UsersInv us) : UsersInv (applyOp us op) := by
  cases op with
  | addOp u =>
      by_cases hx : (lookupA u.ID us).isSome
      · simpa [applyOp, hx] using h
      · simp only [applyOp, hx, if_false]
        exact usersInv_insertA us u u.ID rfl h
  | renameOp u newNick =>
      by_cases hx : (lookupA (ID newNick) us).isSome
      · simpa [applyOp, hx] using h
      · simp only [applyOp, hx, if_false]
        have herase : UsersInv (eraseA u.ID us) :=
          ⟨nodup_keys_eraseA u.ID us h.1,
           fun p hp => h.2 p (mem_eraseA.mp hp).1⟩
        exact usersInv_insertA (eraseA u.ID us) { u with nick := newNick }
          (ID newNick) rfl herase
  | quitOp u =>
      exact ⟨nodup_keys_eraseA u.ID us h.1,
             fun p hp => h.2 p (mem_eraseA.mp hp).1⟩

theorem usersInv_runOps (ops : List RegOp) : UsersInv (runOps ops) := by
  induction ops with
  | nil => exact ⟨List.nodup_nil, by simp [runOps]⟩
  | cons op rest ih => exact usersInv_applyOp (runOps rest) op ih

theorem lookupA_self_of_nodup {α : Type} :
    ∀ (m : List (String × α)) (k : String) (v : α),
      (m.map Prod.fst).Nodup → (k, v) ∈ m → lookupA k m = some v := by
  intro m
  induction m with
  | nil => simp
  | cons p rest ih =>
      intro k v hnd hmem
      rcases List.mem_cons.mp hmem with h | h
      · rw [← h]
        simp [lookupA]
      · have hk : k ∈ rest.map Prod.fst := List.mem_map.mpr ⟨(k, v), h, rfl⟩
        have hne : p.1 ≠ k := by
          intro he
          exact (List.nodup_cons.mp hnd).1 (he ▸ hk)
        simp only [lookupA, hne, if_false]
        exact ih k v (List.nodup_cons.mp hnd).2 h

theorem filter_id_le_one :
    ∀ (us : List (String × User)), UsersInv us → ∀ (n : String),
      (us.filter (fun p => decide (ID p.2.nick = n))).length ≤ 1 := by
  intro us
  induction us with
  | nil => intro _ n; simp
  | cons p rest ih =>
      intro h n
      obtain ⟨hnd, hkey⟩ := h
      have hinv : UsersInv rest :=
        ⟨(List.nodup_cons.mp hnd).2, fun q hq => hkey q (by simp [hq])⟩
      by_cases hp : ID p.2.nick = n
      · have hempty : rest.filter (fun q => decide (ID q.2.nick = n)) = [] := by
          rw [List.filter_eq_nil_iff]
          intro q hq
          simp only [decide_eq_true_eq]
          intro hqn
          have hq1 : q.1 = ID q.2.nick := hkey q (by simp [hq])
          have hp1 : p.1 = ID p.2.nick := hkey p (by simp)
          have : p.1 ∈ rest.map Prod.fst :=
            List.mem_map.mpr ⟨q, hq, by rw [hq1, hqn, hp1, hp]⟩
          exact (List.nodup_cons.mp hnd).1 this
        rw [List.filter_cons_of_pos (by simp [hp]), hempty]
        simp
      · rw [List.filter_cons_of_neg (by simp [hp])]
        exact ih hinv n

/-- Claim C8: in every users map reachable by the registry writers (add on
handshake registration, RenameUser, Quit) from a fresh server, each
lowercased nick has at most one registered user, and each registered user
is stored exactly at the lowercase of its own nick, so looking its nick up
returns that very user. -/
theorem registry_nick_unique (ops : List RegOp) :
    (∀ nick, ((runOps ops).filter
        (fun p => decide (ID p.2.nick = ID nick))).length ≤ 1) ∧
    ∀ p ∈ runOps ops, lookupA (ID p.2.nick) (runOps ops) = some p.2 := by
  have hinv := usersInv_runOps ops
  constructor
  · intro nick
    exact filter_id_le_one (runOps ops) hinv (ID nick)
  · intro p hp
    have hkey := hinv.2 p hp
    have hm : (p.1, p.2) ∈ runOps ops := by simpa using hp
    have := lookupA_self_of_nodup (runOps ops) p.1 p.2 hinv.1 hm
    rw [← hkey]
    exact this

/-- Witness for registry_nick_unique: after adding bob, looking bob's nick
up yields bob. -/
theorem registry_nick_unique_witness :
    lookupA (ID bobU.nick) (runOps [RegOp.addOp bobU]) = some bobU :=
  (registry_nick_unique [RegOp.addOp bobU]).2 (ID bobU.nick, bobU) (by decide)

/- Claim C10 and its correction. -/

def badHs : List Msg :=
  [⟨none, "NICK", [], ""⟩, ⟨none, "NICK", ["foo"], ""⟩,
   ⟨none, "USER", ["root"], "Foo Bar"⟩]

/-- Counterexample to claim C10: a handshake whose first message carries no
parameter still registers, but the first message the server encodes to the
user is ERR_NEEDMOREPARAMS, not RPL_WELCOME. -/
theorem welcome_not_first_counterexample :
    (handshake "srv" [] blankU "h" badHs).isRegistered = true ∧
    ((handshake "srv" [] blankU "h" badHs).sends.head?.map Msg.command) =
      some ERR_NEEDMOREPARAMS := by
  constructor
  · decide
  · decide

/-- Claim C10 as amended: in a handshake all of whose decoded messages
carry at least one parameter, run against an empty registry (so no nick
collision can answer first), a successful registration sends RPL_WELCOME as
the first — indeed the only — handshake message to the user. -/
theorem welcome_first_when_wellformed (sname : String) (fuel : Nat) :
    ∀ (u : User) (msgs acc : List Msg) (us' : List (String × User))
      (u' : User) (s : List Msg),
      (∀ m ∈ msgs, m.params ≠ []) →
      handshakeLoop sname fuel [] u msgs acc = .registered us' u' s →
      s = acc ++ [welcomeMsg sname u'] := by
  induction fuel with
  | zero =>
      intro u msgs acc us' u' s _ h
      simp [handshakeLoop] at h
  | succ n ih =>
      intro u msgs acc us' u' s hall h
      cases msgs with
      | nil => simp [handshakeLoop] at h
      | cons m rest =>
          have hm : m.params ≠ [] := hall m (by simp)
          have hlen : ¬ m.params.length < 1 := by
            cases hp : m.params with
            | nil => exact absurd hp hm
            | cons a as => simp [hp]
          simp only [handshakeLoop] at h
          rw [if_neg hlen] at h
          by_cases h2 : (applyHs u m).nick = "" ∨ (applyHs u m).uname = ""
          · rw [if_pos h2] at h
            exact ih _ rest acc us' u' s (fun x hx => hall x (by simp [hx])) h
          · rw [if_neg h2] at h
            have hl : lookupA (applyHs u m).ID ([] : List (String × User)) =
                none := rfl
            rw [hl] at h
            injection h with e1 e2 e3
            rw [← e3, ← e2]

def goodHs : List Msg :=
  [⟨none, "NICK", ["foo"], ""⟩, ⟨none, "USER", ["root"], "Foo Bar"⟩]

def fooRegistered : User := ⟨6, "foo", "root", "Foo Bar", "h"⟩

/-- Witness for welcome_first_when_wellformed: the clean two-message
handshake sends exactly the welcome. -/
theorem welcome_first_when_wellformed_witness :
    (handshake "srv" [] blankU "h" goodHs).sends =
      [] ++ [welcomeMsg "srv" fooRegistered] := by
  have hreg : handshake "srv" [] blankU "h" goodHs =
      .registered [(ID "foo", fooRegistered)] fooRegistered
        [welcomeMsg "srv" fooRegistered] := by decide
  rw [hreg]
  exact welcome_first_when_wellformed "srv" 5
    { blankU with host := "h" } goodHs [] [(ID "foo", fooRegistered)]
    fooRegistered [welcomeMsg "srv" fooRegistered] (by decide) hreg

end Irckit
